import Mathlib

/-!
Verification development for the cspocli repository (Cardano SPO CLI).

The definitions below are a shallow embedding of the Python sources:

* `src/cardano_spo_cli/tools/secure.py`   (secure / view / restore lifecycle)
* `src/cardano_spo_cli/tools/wallet.py`   (CardanoWalletGenerator)
* `src/cardano_spo_cli/tools/wallet_simple.py` (SimpleCardanoWalletGenerator)

Modelling conventions:

* A byte string is a `List Nat`.
* A directory is an ordered association list of file name and file content;
  the order models the on-disk enumeration order that `pathlib.Path.glob`
  exposes (CPython returns entries in directory order, unsorted).
* The external `cryptography` library (PBKDF2HMAC and Fernet) is modelled as
  an ideal authenticated cipher: a Fernet key is the record of the exact KDF
  invocation that produced it, a ciphertext determines its key and payload,
  and decryption succeeds exactly for the key that produced the ciphertext.
* `os.urandom(16)` and other external randomness are supplied by environment
  parameters (salt generators, fresh BIP39 phrases), so code under test stays
  a pure function of the environment and the starting state.
-/

namespace CSPO

/-- Byte strings, as lists of byte values. -/
abbrev Bytes := List Nat

/-- Python str.endswith / an fnmatch pattern of the shape star-plus-suffix,
as used by pathlib.Path.glob in secure.py (patterns like star .skey,
star .mnemonic.txt, star .enc match exactly the names ending with the
literal suffix; pathlib glob does not special-case dotfiles). -/
def pyEndsWith (s suffixStr : String) : Bool :=
  suffixStr.data.isSuffixOf s.data

/-- Python str.upper, as applied to the pool ticker, over the character
list. -/
def pyUpper (s : String) : String :=
  ⟨s.data.map Char.toUpper⟩

/-- Python str.startswith: prefix test over the character list. -/
def pyStartsWith (s pre : String) : Bool :=
  pre.data.isPrefixOf s.data

/-- Python str.strip: drop whitespace from both ends. -/
def pyStrip (s : String) : String :=
  ⟨((s.data.dropWhile Char.isWhitespace).reverse.dropWhile
      Char.isWhitespace).reverse⟩

/-- Python str.encode, UTF-8 bytes of a string. -/
def pyEncode (s : String) : Bytes :=
  s.toUTF8.toList.map (fun b => b.toNat)

/-- Lowercase hex digit table, for bytes.hex(). -/
def hexDigit (n : Nat) : Char :=
  List.getD ("0123456789abcdef".data) n 'x'

/-- Hex image of one byte, two lowercase digits, as in Python bytes.hex(). -/
def byteHex (n : Nat) : String :=
  String.mk [hexDigit (n / 16 % 16), hexDigit (n % 16)]

/-- Python bytes.hex() over a byte string. -/
def bytesHex (b : Bytes) : String :=
  String.join (b.map byteHex)

/-- The exact parameters of one PBKDF2HMAC invocation in
derive_key_from_password (secure.py lines 18-23). -/
structure KdfParams where
  algorithm : String
  length : Nat
  iterations : Nat
  salt : Bytes
deriving DecidableEq, Repr

/-- A Fernet key as produced by derive_key_from_password: the
urlsafe-b64 encoding of the PBKDF2 output is modelled as the record of the
KDF call (parameters and password); two keys are equal exactly when the
same password was stretched with the same parameters. -/
structure FernetKey where
  params : KdfParams
  password : String
deriving DecidableEq, Repr

/-- Content of a file.  `plain` is an ordinary byte string.  `encBlob`
is the on-disk image written by encrypt_file: the 16-byte salt immediately
followed by the Fernet ciphertext; the ideal-cipher model records the key
and the encrypted payload inside the ciphertext. -/
inductive Content where
  | plain (data : Bytes)
  | encBlob (salt : Bytes) (key : FernetKey) (payload : Content)
deriving DecidableEq, Repr

/-- A directory: ordered list of (file name, content) pairs. -/
abbrev Dir := List (String × Content)

/-- Read a file from a directory by name (first match). -/
def findContent : Dir → String → Option Content
  | [], _ => none
  | (m, c) :: rest, n => if m = n then some c else findContent rest n

/-- Python open(path, "wb") / open(path, "w"): overwrite an existing entry
in place, otherwise append a new one at the end of the directory order. -/
def dirWrite : Dir → String → Content → Dir
  | [], n, c => [(n, c)]
  | (m, c0) :: rest, n, c =>
      if m = n then (n, c) :: rest else (m, c0) :: dirWrite rest n c

/-- Python Path.unlink: remove the entry with the given name. -/
def dirErase (d : Dir) (n : String) : Dir :=
  d.filter fun f => f.1 != n

/-- derive_key_from_password (secure.py lines 13-25).  `saltArg` is the
optional salt argument; `fresh` is the value os.urandom(16) would return
when the salt argument is absent.  Returns the key and the salt used. -/
def derive_key_from_password (password : String) (saltArg : Option Bytes)
    (fresh : Bytes) : FernetKey × Bytes :=
  let salt := saltArg.getD fresh
  (⟨⟨"SHA256", 32, 100000, salt⟩, password⟩, salt)

/-- Result record of encrypt_file (original_path / encrypted_path). -/
structure EncRecord where
  original_path : String
  encrypted_path : String
deriving DecidableEq, Repr

/-- encrypt_file (secure.py lines 28-59): read the original content, derive
a key from the password with a fresh salt, write salt-then-ciphertext under
the original name plus ".enc" (with_suffix with the old suffix plus ".enc"
always appends ".enc" to the full name), delete the original. -/
def encrypt_file (d : Dir) (name password : String) (fresh : Bytes) :
    Except String (Dir × EncRecord) :=
  match findContent d name with
  | none => .error "File not found"
  | some original_data =>
      let ks := derive_key_from_password password none fresh
      let encrypted_data := Content.encBlob ks.2 ks.1 original_data
      let encrypted_path := name ++ ".enc"
      let d1 := dirWrite d encrypted_path encrypted_data
      let d2 := dirErase d1 name
      .ok (d2, ⟨name, encrypted_path⟩)

/-- Errors of decrypt_file. -/
inductive DecErr where
  | fileNotFound
  | decryptionFailed
deriving DecidableEq, Repr

/-- decrypt_file (secure.py lines 62-81): read the stored salt, re-derive
the key from the given password and that salt, and let Fernet authenticate.
In the ideal-cipher model decryption succeeds exactly when the re-derived
key equals the key recorded in the ciphertext; a file that does not hold a
valid Fernet token (a plain file) always fails authentication. -/
def decrypt_file (d : Dir) (name password : String) : Except DecErr Content :=
  match findContent d name with
  | none => .error .fileNotFound
  | some (Content.plain _) => .error .decryptionFailed
  | some (Content.encBlob salt key payload) =>
      let ks := derive_key_from_password password (some salt) []
      if ks.1 = key then .ok payload else .error .decryptionFailed

/-- get_sensitive_files (secure.py lines 84-95): the files matching the
pattern star .skey, followed by the files matching star .mnemonic.txt,
in directory order (glob per pattern, results concatenated). -/
def get_sensitive_files (d : Dir) : List (String × Content) :=
  (d.filter fun f => pyEndsWith f.1 ".skey")
    ++ (d.filter fun f => pyEndsWith f.1 ".mnemonic.txt")

/-- The files matching the pattern star .enc, in directory order
(wallet_dir.glob in view_wallet_files and restore_wallet_files). -/
def encFilter (d : Dir) : Dir :=
  d.filter fun f => pyEndsWith f.1 ".enc"

/-- Errors raised by secure_wallet_files. -/
inductive SecErr where
  | walletDirNotFound
  | noSensitiveFiles
  | secureFailed (name : String)
deriving DecidableEq, Repr

/-- The per-file loop of secure_wallet_files (lines 111-117): encrypt each
collected sensitive file in order; the first failure aborts the batch with
a ClickException, keeping the files already converted. -/
def secureFilesLoop (password : String) (saltGen : Nat → Bytes) :
    List (String × Content) → Nat → Dir → List EncRecord →
      Option SecErr × Dir × List EncRecord
  | [], _, d, recs => (none, d, recs)
  | (name, _) :: rest, i, d, recs =>
      match encrypt_file d name password (saltGen i) with
      | .error _ => (some (.secureFailed name), d, recs)
      | .ok (d2, r) => secureFilesLoop password saltGen rest (i + 1) d2 (recs ++ [r])

/-- secure_wallet_files, directory part (secure.py lines 98-123), acting on
an existing wallet directory.  `saltGen i` is the os.urandom(16) draw of the
i-th encryption.  Returns the error if any, the resulting directory, and the
secured_count of the success report. -/
def secure_wallet_dir (password : String) (saltGen : Nat → Bytes) (d : Dir) :
    Option SecErr × Dir × Nat :=
  let sensitive_files := get_sensitive_files d
  if sensitive_files = [] then (some .noSensitiveFiles, d, 0)
  else
    match secureFilesLoop password saltGen sensitive_files 0 d [] with
    | (some e, d2, _) => (some e, d2, 0)
    | (none, d2, recs) => (none, d2, recs.length)

/-- pathlib stem / with_suffix-empty on a name ending in ".enc": both drop
the final ".enc" suffix, except on the bare name ".enc", which pathlib
treats as an extensionless dotfile and leaves unchanged. -/
def stemEnc (name : String) : String :=
  if name = ".enc" then name else ⟨name.data.take (name.data.length - 4)⟩

/-- Errors raised by view_wallet_files. -/
inductive ViewErr where
  | walletDirNotFound
  | noSecuredFiles
  | secureFileNotFound (name : String)
  | viewFailed (name : String)
deriving DecidableEq, Repr

/-- Successful outcome of view_wallet_files: the decrypted content of one
file, or the listing of logical names of the secured files.  The utf-8
decoding of a successfully decrypted payload is not modelled; it only
post-processes the success value and cannot turn an authentication failure
into a success. -/
inductive ViewOut where
  | fileContent (c : Content)
  | listing (names : List String)
deriving DecidableEq, Repr

/-- view_wallet_files, directory part (secure.py lines 126-161).  The
operation performs no writes, so the state-passing embedding returns the
directory unchanged alongside the result. -/
def view_wallet_dir (password : String) (specific_file : Option String)
    (d : Dir) : Except ViewErr ViewOut × Dir :=
  let encrypted_files := encFilter d
  if encrypted_files = [] then (.error .noSecuredFiles, d)
  else
    match specific_file with
    | some name =>
        let target := name ++ ".enc"
        match findContent d target with
        | none => (.error (.secureFileNotFound name), d)
        | some _ =>
            match decrypt_file d target password with
            | .error _ => (.error (.viewFailed name), d)
            | .ok payload => (.ok (.fileContent payload), d)
    | none =>
        (.ok (.listing (encrypted_files.map fun f => stemEnc f.1)), d)

/-- Errors raised by restore_wallet_files. -/
inductive RestoreErr where
  | walletDirNotFound
  | noSecuredFiles
  | restoreFailed (name : String)
deriving DecidableEq, Repr

/-- The per-file loop of restore_wallet_files (lines 178-194): decrypt each
collected .enc file in order, write the plaintext under the name with the
".enc" suffix stripped, delete the encrypted file; the first failure aborts
the batch with a ClickException, keeping the files already restored. -/
def restoreFilesLoop (password : String) :
    List (String × Content) → Dir → List String →
      Option RestoreErr × Dir × List String
  | [], d, restored => (none, d, restored)
  | (name, _) :: rest, d, restored =>
      match decrypt_file d name password with
      | .error _ => (some (.restoreFailed name), d, restored)
      | .ok payload =>
          let original := stemEnc name
          let d2 := dirWrite d original payload
          let d3 := dirErase d2 name
          restoreFilesLoop password rest d3 (restored ++ [original])

/-- restore_wallet_files, directory part (secure.py lines 164-200). -/
def restore_wallet_dir (password : String) (d : Dir) :
    Option RestoreErr × Dir × List String :=
  let encrypted_files := encFilter d
  if encrypted_files = [] then (some .noSecuredFiles, d, [])
  else restoreFilesLoop password encrypted_files d []

/-- A filesystem mapping wallet-directory paths to directories, for the
path-resolution layer of the secure / view / restore operations. -/
abbrev FS := List (String × Dir)

/-- Look up a directory by path. -/
def fsFind : FS → String → Option Dir
  | [], _ => none
  | (p, d) :: rest, q => if p = q then some d else fsFind rest q

/-- Replace a directory at a path (the path is known to exist). -/
def fsWrite : FS → String → Dir → FS
  | [], p, d => [(p, d)]
  | (q, d0) :: rest, p, d =>
      if q = p then (p, d) :: rest else (q, d0) :: fsWrite rest p d

/-- The wallet directory path used by secure.py (lines 100-101, 130-131,
166-167): the user home joined with ".CSPO_" plus the uppercased ticker,
then the purpose. -/
def wallet_dir_path (ticker purpose : String) : String :=
  ".CSPO_" ++ pyUpper ticker ++ "/" ++ purpose

/-- secure_wallet_files (secure.py lines 98-123), including the resolution
of the wallet directory from the uppercased ticker. -/
def secure_wallet_files (ticker purpose password : String)
    (saltGen : Nat → Bytes) (fs : FS) : Option SecErr × FS × Nat :=
  match fsFind fs (wallet_dir_path ticker purpose) with
  | none => (some .walletDirNotFound, fs, 0)
  | some d =>
      let r := secure_wallet_dir password saltGen d
      (r.1, fsWrite fs (wallet_dir_path ticker purpose) r.2.1, r.2.2)

/-- view_wallet_files (secure.py lines 126-161), including the resolution
of the wallet directory from the uppercased ticker. -/
def view_wallet_files (ticker purpose password : String)
    (specific_file : Option String) (fs : FS) : Except ViewErr ViewOut × FS :=
  match fsFind fs (wallet_dir_path ticker purpose) with
  | none => (.error .walletDirNotFound, fs)
  | some d =>
      let r := view_wallet_dir password specific_file d
      (r.1, fsWrite fs (wallet_dir_path ticker purpose) r.2)

/-- restore_wallet_files (secure.py lines 164-200), including the
resolution of the wallet directory from the uppercased ticker. -/
def restore_wallet_files (ticker purpose password : String) (fs : FS) :
    Option RestoreErr × FS × List String :=
  match fsFind fs (wallet_dir_path ticker purpose) with
  | none => (some .walletDirNotFound, fs, [])
  | some d =>
      let r := restore_wallet_dir password d
      (r.1, fsWrite fs (wallet_dir_path ticker purpose) r.2.1, r.2.2)

/-! Embedding of wallet.py: CardanoWalletGenerator. -/

/-- One subprocess.run invocation of the external cardano-address tool, as
issued by CardanoWalletGenerator (command-line shape and piped stdin). -/
inductive ToolCall where
  | fromRecoveryPhrase (stdin : String)
  | keyChild (path : String) (stdin : String)
  | keyPublic (stdin : String)
  | addrPayment (tag : String) (stdin : String)
  | addrStake (tag : String) (stdin : String)
  | addrDelegation (stakeVkey : String) (stdin : String)
deriving DecidableEq, Repr

/-- Result of one subprocess.run call. -/
structure ToolResult where
  returncode : Int
  stdout : String
  stderr : String
deriving DecidableEq, Repr

/-- Environment of a generation run: the subprocess oracle (indexed by a
call counter, so successive identical invocations of the external tool may
answer differently), the fresh BIP39 phrase Mnemonic.generate(strength=256)
would produce, the external sha256 digest, and bech32.bech32_decode. -/
structure GenEnv where
  run : Nat → ToolCall → ToolResult
  freshMnemonic : String
  sha256 : Bytes → Bytes
  bech32_decode : String → Option (String × Bytes)

/-- State owned by a generator for one ticker: the per-ticker shared
mnemonic file (content and permission bits) under the home directory, and
the files of the wallet directory home/purpose. -/
structure WalletFile where
  name : String
  content : String
  mode : Nat
deriving DecidableEq, Repr

structure GenState where
  shared : Option (String × Nat)
  walletFiles : List WalletFile
deriving DecidableEq, Repr

/-- get_or_create_shared_mnemonic (wallet.py lines 83-97): return the
persisted phrase stripped if the shared file exists; otherwise generate a
fresh phrase, persist it with permissions 0o600 and return it untrimmed. -/
def get_or_create_shared_mnemonic (fresh : String) (s : GenState) :
    String × GenState :=
  match s.shared with
  | some (content, _) => (pyStrip content, s)
  | none => (fresh, { s with shared := some (fresh, 0o600) })

/-- Errors of a real-mode generation run (each constructor stands for the
ClickException with the corresponding message in wallet.py). -/
inductive GenErr where
  | rootKeyFailed
  | paymentAddrFailed
  | stakeAddrFailed
  | baseAddrFailed
  | baseAddrMismatch
  | rewardAddrMismatch
  | invalidBaseAddr
  | invalidRewardAddr
deriving DecidableEq, Repr

/-- mnemonic_to_root_key (wallet.py lines 103-114): one piped call of
cardano-address key from-recovery-phrase Shelley. -/
def mnemonic_to_root_key (env : GenEnv) (k : Nat) (mnemonic : String) :
    Except GenErr String × Nat :=
  let r := env.run k (.fromRecoveryPhrase mnemonic)
  if r.returncode = 0 then (.ok (pyStrip r.stdout), k + 1)
  else (.error .rootKeyFailed, k + 1)

/-- The purpose index of the payment derivation path (wallet.py line 120):
"0" for pledge, otherwise "1". -/
def purposeIndexOf (purpose : String) : String :=
  if purpose = "pledge" then "0" else "1"

/-- The payment derivation path (wallet.py line 121). -/
def paymentDerivationPath (purpose : String) : String :=
  "1852H/1815H/0H/" ++ purposeIndexOf purpose ++ "/0"

/-- The staking derivation path (wallet.py line 176). -/
def stakingDerivationPath : String := "1852H/1815H/0H/2/0"

/-- The cold-key derivation path (wallet.py line 728). -/
def coldDerivationPath : String := "1852H/1815H/0H/3/0"

/-- The hot-key derivation path (wallet.py line 774). -/
def hotDerivationPath : String := "1852H/1815H/0H/4/0"

/-- The DRep derivation path (wallet.py line 820). -/
def drepDerivationPath : String := "1852H/1815H/0H/5/0"

/-- The multi-signature payment derivation path (wallet.py line 866). -/
def msPaymentDerivationPath : String := "1852H/1815H/0H/6/0"

/-- The multi-signature stake derivation path (wallet.py line 917). -/
def msStakeDerivationPath : String := "1852H/1815H/0H/7/0"

/-- The multi-signature DRep derivation path (wallet.py line 963). -/
def msDrepDerivationPath : String := "1852H/1815H/0H/8/0"

/-- The deterministic fallback key pair of derive_payment_key and
derive_staking_key (wallet.py lines 161-170, 216-225): CBOR-tagged hex of
sha256 over the seed string, and of sha256 over that digest. -/
def fallbackKeyPair (env : GenEnv) (seedStr : String) : String × String :=
  let key_hash := env.sha256 (pyEncode seedStr)
  ("58" ++ "20" ++ bytesHex key_hash,
   "58" ++ "20" ++ bytesHex (env.sha256 key_hash))

/-- derive_payment_key (wallet.py lines 116-170): derive the signing key
through cardano-address key child on the purpose-dependent path, then the
verification key through key public; any failing subprocess falls back to
the deterministic hash-based key pair. -/
def derive_payment_key (env : GenEnv) (k : Nat) (root_key purpose : String) :
    (String × String) × Nat :=
  let r1 := env.run k (.keyChild (paymentDerivationPath purpose) root_key)
  if r1.returncode = 0 then
    let payment_skey := pyStrip r1.stdout
    let r2 := env.run (k + 1) (.keyPublic payment_skey)
    if r2.returncode = 0 then ((payment_skey, pyStrip r2.stdout), k + 2)
    else (fallbackKeyPair env (root_key ++ "_" ++ purpose ++ "_payment"), k + 2)
  else (fallbackKeyPair env (root_key ++ "_" ++ purpose ++ "_payment"), k + 1)

/-- derive_staking_key (wallet.py lines 172-225): like the payment key but
on the fixed staking path, with fallback seed root_key plus "_staking". -/
def derive_staking_key (env : GenEnv) (k : Nat) (root_key : String) :
    (String × String) × Nat :=
  let r1 := env.run k (.keyChild stakingDerivationPath root_key)
  if r1.returncode = 0 then
    let stake_skey := pyStrip r1.stdout
    let r2 := env.run (k + 1) (.keyPublic stake_skey)
    if r2.returncode = 0 then ((stake_skey, pyStrip r2.stdout), k + 2)
    else (fallbackKeyPair env (root_key ++ "_staking"), k + 2)
  else (fallbackKeyPair env (root_key ++ "_staking"), k + 1)

/-- The network-tag table of generate_payment_address,
generate_staking_address, generate_address_candidate and
generate_payment_only_address (wallet.py lines 232-233, 292-293, 329-330,
2117-2118): a dict lookup with default "1". -/
def networkTag (network : String) : String :=
  if network = "mainnet" then "1"
  else if network = "testnet" then "0"
  else if network = "preview" then "0"
  else if network = "preprod" then "0"
  else "1"

/-- The network-tag expression of generate_keys_with_cardano_address
(wallet.py lines 1546, 1565 and 1670): the string "0" if the network is
mainnet, otherwise "1". -/
def networkTagCardanoAddress (network : String) : String :=
  if network = "mainnet" then "0" else "1"

/-- One row of the network_config table of generate_keys_simplified
(wallet.py lines 1986-2012). -/
structure NetworkConfig where
  addrHrp : String
  stakeHrp : String
  network_tag : Nat
deriving DecidableEq, Repr

/-- The network_config lookup of generate_keys_simplified (wallet.py lines
1986-2009), with the mainnet row as the default. -/
def simplifiedNetworkConfig (network : String) : NetworkConfig :=
  if network = "mainnet" then ⟨"addr", "stake", 1⟩
  else if network = "testnet" then ⟨"addr_test", "stake_test", 0⟩
  else if network = "preview" then ⟨"addr_test", "stake_test", 0⟩
  else if network = "preprod" then ⟨"addr_test", "stake_test", 0⟩
  else ⟨"addr", "stake", 1⟩

/-- generate_payment_address (wallet.py lines 227-285): payment address
from the payment verification key, stake address from the staking key (its
output is computed and discarded by the source), then the delegation call
combining the payment address with the staking verification key. -/
def generate_payment_address (env : GenEnv) (k : Nat)
    (payment_vkey staking_vkey network : String) : Except GenErr String × Nat :=
  let tag := networkTag network
  let r1 := env.run k (.addrPayment tag payment_vkey)
  if r1.returncode = 0 then
    let payment_addr := pyStrip r1.stdout
    let r2 := env.run (k + 1) (.addrStake tag staking_vkey)
    if r2.returncode = 0 then
      let r3 := env.run (k + 2) (.addrDelegation staking_vkey payment_addr)
      if r3.returncode = 0 then (.ok (pyStrip r3.stdout), k + 3)
      else (.error .baseAddrFailed, k + 3)
    else (.error .stakeAddrFailed, k + 2)
  else (.error .paymentAddrFailed, k + 1)

/-- generate_address_candidate (wallet.py lines 323-381): the second,
independent computation of the base address, issued through the same three
tool invocations as generate_payment_address. -/
def generate_address_candidate (env : GenEnv) (k : Nat)
    (payment_vkey staking_vkey network : String) : Except GenErr String × Nat :=
  let tag := networkTag network
  let r1 := env.run k (.addrPayment tag payment_vkey)
  if r1.returncode = 0 then
    let payment_addr := pyStrip r1.stdout
    let r2 := env.run (k + 1) (.addrStake tag staking_vkey)
    if r2.returncode = 0 then
      let r3 := env.run (k + 2) (.addrDelegation staking_vkey payment_addr)
      if r3.returncode = 0 then (.ok (pyStrip r3.stdout), k + 3)
      else (.error .baseAddrFailed, k + 3)
    else (.error .stakeAddrFailed, k + 2)
  else (.error .paymentAddrFailed, k + 1)

/-- generate_staking_address (wallet.py lines 287-307). -/
def generate_staking_address (env : GenEnv) (k : Nat)
    (staking_vkey network : String) : Except GenErr String × Nat :=
  let r := env.run k (.addrStake (networkTag network) staking_vkey)
  if r.returncode = 0 then (.ok (pyStrip r.stdout), k + 1)
  else (.error .stakeAddrFailed, k + 1)

/-- verify_address_candidates (wallet.py lines 383-385). -/
def verify_address_candidates (base_addr candidate_addr : String) : Bool :=
  base_addr == candidate_addr

/-- validate_address (wallet.py lines 309-321): bech32-decode and check
the human-readable part against the accepted list. -/
def validate_address (env : GenEnv) (address : String) : Bool :=
  match env.bech32_decode address with
  | none => false
  | some (hrp, _) => ["addr", "addr_test", "stake", "stake_test"].contains hrp

/-- Write a wallet file (open with mode "w"), with default permissions. -/
def wfWrite : List WalletFile → String → String → List WalletFile
  | [], n, c => [⟨n, c, 0o644⟩]
  | f :: rest, n, c =>
      if f.name = n then ⟨n, c, 0o644⟩ :: rest else f :: wfWrite rest n c

/-- Path.chmod on a wallet file. -/
def wfChmod : List WalletFile → String → Nat → List WalletFile
  | [], _, _ => []
  | f :: rest, n, m =>
      if f.name = n then ⟨f.name, f.content, m⟩ :: rest else f :: wfChmod rest n m

/-- The wallet_data dictionary assembled by generate_wallet. -/
structure WalletData where
  payment_skey : String
  payment_vkey : String
  base_addr : String
  base_addr_candidate : String
  reward_addr : String
  reward_addr_candidate : String
  staking_skey : String
  staking_vkey : String
  mnemonic : String
deriving DecidableEq, Repr

/-- save_wallet_files (wallet.py lines 387-457): write the nine wallet
files named from the uppercased ticker and the purpose, then chmod 0o600
the payment signing key, the staking signing key and the mnemonic file.
`tickerU` is self.ticker, already uppercased by the constructor. -/
def save_wallet_files (tickerU purpose : String) (wd : WalletData)
    (files : List WalletFile) : List WalletFile :=
  let base := tickerU ++ "-" ++ purpose
  let f1 := wfWrite files (base ++ ".payment_skey") wd.payment_skey
  let f2 := wfWrite f1 (base ++ ".payment_vkey") wd.payment_vkey
  let f3 := wfWrite f2 (base ++ ".base_addr") wd.base_addr
  let f4 := wfWrite f3 (base ++ ".base_addr.candidate") wd.base_addr_candidate
  let f5 := wfWrite f4 (base ++ ".reward_addr") wd.reward_addr
  let f6 := wfWrite f5 (base ++ ".reward_addr.candidate") wd.reward_addr_candidate
  let f7 := wfWrite f6 (base ++ ".staking_skey") wd.staking_skey
  let f8 := wfWrite f7 (base ++ ".staking_vkey") wd.staking_vkey
  let f9 := wfWrite f8 (base ++ ".mnemonic.txt") wd.mnemonic
  let g1 := wfChmod f9 (base ++ ".payment_skey") 0o600
  let g2 := wfChmod g1 (base ++ ".staking_skey") 0o600
  wfChmod g2 (base ++ ".mnemonic.txt") 0o600

/-- generate_wallet (wallet.py lines 598-669): shared mnemonic, root key,
payment and staking key pairs, the two addresses, their independently
recomputed candidates, the candidate verification, the bech32 validation,
and only then the persistence of the wallet files.  Any ClickException
leaves the wallet directory untouched (only the shared mnemonic file may
have been created by get_or_create_shared_mnemonic). -/
def generate_wallet (env : GenEnv) (ticker purpose network : String)
    (s : GenState) : Except GenErr WalletData × GenState :=
  let tickerU := pyUpper ticker
  let ms := get_or_create_shared_mnemonic env.freshMnemonic s
  let mnemonic := ms.1
  let s1 := ms.2
  match mnemonic_to_root_key env 0 mnemonic with
  | (.error e, _) => (.error e, s1)
  | (.ok root_key, k1) =>
      let pk := derive_payment_key env k1 root_key purpose
      let payment_skey := pk.1.1
      let payment_vkey := pk.1.2
      let sk := derive_staking_key env pk.2 root_key
      let staking_skey := sk.1.1
      let staking_vkey := sk.1.2
      match generate_payment_address env sk.2 payment_vkey staking_vkey network with
      | (.error e, _) => (.error e, s1)
      | (.ok base_addr, k2) =>
          match generate_staking_address env k2 staking_vkey network with
          | (.error e, _) => (.error e, s1)
          | (.ok reward_addr, k3) =>
              match generate_address_candidate env k3 payment_vkey staking_vkey network with
              | (.error e, _) => (.error e, s1)
              | (.ok base_addr_candidate, k4) =>
                  match generate_staking_address env k4 staking_vkey network with
                  | (.error e, _) => (.error e, s1)
                  | (.ok reward_addr_candidate, _) =>
                      if verify_address_candidates base_addr base_addr_candidate = false then
                        (.error .baseAddrMismatch, s1)
                      else if verify_address_candidates reward_addr reward_addr_candidate = false then
                        (.error .rewardAddrMismatch, s1)
                      else if validate_address env base_addr = false then
                        (.error .invalidBaseAddr, s1)
                      else if validate_address env reward_addr = false then
                        (.error .invalidRewardAddr, s1)
                      else
                        let wd : WalletData :=
                          ⟨payment_skey, payment_vkey, base_addr,
                           base_addr_candidate, reward_addr,
                           reward_addr_candidate, staking_skey, staking_vkey,
                           mnemonic⟩
                        (.ok wd,
                         { s1 with
                             walletFiles :=
                               save_wallet_files tickerU purpose wd s1.walletFiles })

/-! Embedding of wallet_simple.py: SimpleCardanoWalletGenerator. -/

/-- Environment of a simplified generation run: the fresh BIP39 phrase of
Mnemonic.generate(strength=256), Mnemonic.to_seed, the PBKDF2HMAC-SHA512
key stretcher of derive_master_key, the external sha256 digest,
bech32.convertbits and bech32.encode (the version-dependent fallback
branches of generate_address are collapsed into the encoder function). -/
structure SimpleEnv where
  freshMnemonic : String
  to_seed : String → Bytes
  pbkdf2_sha512 : Bytes → Bytes → Nat → Nat → Bytes
  sha256 : Bytes → Bytes
  convertbits : Bytes → Option (List Nat)
  bech32_encode : String → List Nat → Option String

/-- derive_master_key (wallet_simple.py lines 37-47): PBKDF2HMAC with
SHA512, length 64, the fixed salt b"cardano-master-key" and 100000
iterations, applied to the seed. -/
def derive_master_key (env : SimpleEnv) (seed : Bytes) : Bytes :=
  env.pbkdf2_sha512 seed (pyEncode "cardano-master-key") 64 100000

/-- derive_child_key (wallet_simple.py lines 49-55). -/
def derive_child_key (env : SimpleEnv) (parent_key : Bytes) (path : String) :
    Bytes :=
  let path_hash := env.sha256 (pyEncode path)
  env.sha256 (parent_key ++ path_hash)

/-- generate_key_pair (wallet_simple.py lines 57-65). -/
def simple_generate_key_pair (env : SimpleEnv) (seed : Bytes) (path : String) :
    Bytes × Bytes :=
  let private_key := derive_child_key env seed path
  (private_key, env.sha256 private_key)

/-- generate_address (wallet_simple.py lines 67-98): choose the
human-readable part, convert the public key to 5-bit words and
bech32-encode.  A failing conversion or encoding raises (the rare
library-version fallback that swallows a TypeError from a newer bech32 API
is represented by the encoder environment function itself). -/
def simple_generate_address (env : SimpleEnv) (public_key : Bytes)
    (is_stake : Bool) : Option String :=
  let hrp := if is_stake then "stake" else "addr"
  match env.convertbits public_key with
  | none => none
  | some words =>
      match env.bech32_encode hrp words with
      | some address => some address
      | none => none

/-- The wallet_data dictionary of the simplified generate_wallet. -/
structure SimpleWalletData where
  base_addr : String
  reward_addr : String
  staking_skey : String
  staking_vkey : String
  mnemonic : String
deriving DecidableEq, Repr

/-- Errors of a simplified generation run. -/
inductive SimpleErr where
  | addressEncodingFailed
  | invalidBaseAddr
  | invalidRewardAddr
deriving DecidableEq, Repr

/-- save_wallet_files of SimpleCardanoWalletGenerator (wallet_simple.py
lines 115-157): five files named from the uppercased ticker and purpose,
with chmod 0o600 on the staking signing key and the mnemonic file. -/
def simple_save_wallet_files (tickerU purpose : String)
    (wd : SimpleWalletData) (files : List WalletFile) : List WalletFile :=
  let base := tickerU ++ "-" ++ purpose
  let f1 := wfWrite files (base ++ ".base_addr") wd.base_addr
  let f2 := wfWrite f1 (base ++ ".reward_addr") wd.reward_addr
  let f3 := wfWrite f2 (base ++ ".staking_skey") wd.staking_skey
  let f4 := wfWrite f3 (base ++ ".staking_vkey") wd.staking_vkey
  let f5 := wfWrite f4 (base ++ ".mnemonic.txt") wd.mnemonic
  let g1 := wfChmod f5 (base ++ ".staking_skey") 0o600
  wfChmod g1 (base ++ ".mnemonic.txt") 0o600

/-- generate_wallet of SimpleCardanoWalletGenerator (wallet_simple.py
lines 159-215): generate a fresh mnemonic (the shared per-ticker mnemonic
file is never consulted), derive the master key and the two key pairs,
build the two addresses, check their textual form, and persist the five
wallet files.  The network parameter is accepted and unused. -/
def simple_generate_wallet (env : SimpleEnv) (ticker purpose _network : String)
    (s : GenState) : Except SimpleErr SimpleWalletData × GenState :=
  let tickerU := pyUpper ticker
  let mnemonic := env.freshMnemonic
  let seed := env.to_seed mnemonic
  let master_key := derive_master_key env seed
  let pk := simple_generate_key_pair env master_key "1852H/1815H/0H/0/0"
  let payment_vkey := pk.2
  let sk := simple_generate_key_pair env master_key "1852H/1815H/0H/2/0"
  let staking_skey := sk.1
  let staking_vkey := sk.2
  match simple_generate_address env payment_vkey false with
  | none => (.error .addressEncodingFailed, s)
  | some base_addr =>
      match simple_generate_address env staking_vkey true with
      | none => (.error .addressEncodingFailed, s)
      | some reward_addr =>
          if (pyStartsWith base_addr "addr" || pyStartsWith base_addr "stake") = false then
            (.error .invalidBaseAddr, s)
          else if (pyStartsWith reward_addr "addr" || pyStartsWith reward_addr "stake") = false then
            (.error .invalidRewardAddr, s)
          else
            let wd : SimpleWalletData :=
              ⟨base_addr, reward_addr, bytesHex staking_skey,
               bytesHex staking_vkey, mnemonic⟩
            (.ok wd,
             { s with
                 walletFiles :=
                   simple_save_wallet_files tickerU purpose wd s.walletFiles })

/-! Basic lemmas about the directory model. -/

theorem String.eq_of_data_eq {s t : String} (h : s.data = t.data) : s = t := by
  cases s; cases t; simp_all

theorem append_enc_ne (s : String) : s ++ ".enc" ≠ s := by
  intro h
  have hlen := congrArg String.length h
  rw [String.length_append] at hlen
  have h4 : (".enc" : String).length = 4 := rfl
  omega

theorem append_enc_inj {s t : String} (h : s ++ ".enc" = t ++ ".enc") : s = t := by
  have hd : s.data ++ ".enc".data = t.data ++ ".enc".data := by
    rw [← String.data_append, ← String.data_append, h]
  exact String.eq_of_data_eq ((List.append_left_inj _).mp hd)

theorem pyEndsWith_iff {s t : String} :
    pyEndsWith s t = true ↔ t.data <:+ s.data := by
  simp [pyEndsWith, List.isSuffixOf_iff_suffix]

theorem pyEndsWith_append (s t : String) : pyEndsWith (s ++ t) t = true := by
  rw [pyEndsWith_iff, String.data_append]
  exact List.suffix_append _ _

theorem pyEndsWith_ne_empty {s t : String} (h : pyEndsWith s t = true)
    (ht : t ≠ "") : s ≠ "" := by
  intro hs
  subst hs
  rw [pyEndsWith_iff] at h
  have hlen := h.length_le
  simp at hlen
  exact ht (String.eq_of_data_eq (by simp [List.length_eq_zero.mp hlen]))

theorem pyEndsWith_conflict {s t1 t2 : String}
    (h1 : pyEndsWith s t1 = true) (h2 : pyEndsWith s t2 = true)
    (hn1 : t1.data.isSuffixOf t2.data = false)
    (hn2 : t2.data.isSuffixOf t1.data = false) : False := by
  rw [pyEndsWith_iff] at h1 h2
  rcases List.suffix_or_suffix_of_suffix h1 h2 with h | h
  · rw [← List.isSuffixOf_iff_suffix, hn1] at h
    exact Bool.false_ne_true h
  · rw [← List.isSuffixOf_iff_suffix, hn2] at h
    exact Bool.false_ne_true h

theorem skey_not_enc {s : String} (h : pyEndsWith s ".skey" = true) :
    pyEndsWith s ".enc" = false := by
  by_contra hc
  simp only [Bool.not_eq_false] at hc
  exact pyEndsWith_conflict h hc (by decide) (by decide)

theorem mnemonic_not_enc {s : String} (h : pyEndsWith s ".mnemonic.txt" = true) :
    pyEndsWith s ".enc" = false := by
  by_contra hc
  simp only [Bool.not_eq_false] at hc
  exact pyEndsWith_conflict h hc (by decide) (by decide)

theorem skey_mnemonic_conflict {s : String}
    (h1 : pyEndsWith s ".skey" = true) (h2 : pyEndsWith s ".mnemonic.txt" = true) :
    False :=
  pyEndsWith_conflict h1 h2 (by decide) (by decide)

theorem stemEnc_append (s : String) (hs : s ≠ "") : stemEnc (s ++ ".enc") = s := by
  have hne : s ++ ".enc" ≠ ".enc" := by
    intro h
    have hd : s.data ++ ".enc".data = ([] : List Char) ++ ".enc".data := by
      rw [← String.data_append, h]; rfl
    exact hs (String.eq_of_data_eq ((List.append_left_inj _).mp hd))
  rw [stemEnc, if_neg hne]
  apply String.eq_of_data_eq
  show ((s ++ ".enc").data.take ((s ++ ".enc").data.length - 4)) = s.data
  rw [String.data_append]
  have h4 : (String.data ".enc").length = 4 := by decide
  rw [List.length_append, h4]
  simp [List.take_left s.data (String.data ".enc")]

theorem findContent_cons (m : String) (c : Content) (rest : Dir) (n : String) :
    findContent ((m, c) :: rest) n
      = if m = n then some c else findContent rest n := rfl

theorem dirWrite_cons (m : String) (c0 : Content) (rest : Dir) (n : String)
    (c : Content) :
    dirWrite ((m, c0) :: rest) n c
      = if m = n then (n, c) :: rest else (m, c0) :: dirWrite rest n c := rfl

theorem findContent_mem {d : Dir} {n : String} {c : Content}
    (h : findContent d n = some c) : (n, c) ∈ d := by
  induction d with
  | nil => exact absurd h (by simp [findContent])
  | cons f rest ih =>
      obtain ⟨m, c0⟩ := f
      rw [findContent_cons] at h
      by_cases hm : m = n
      · rw [if_pos hm] at h
        obtain rfl : c0 = c := Option.some.inj h
        subst hm
        exact List.mem_cons_self _ _
      · rw [if_neg hm] at h
        exact List.mem_cons_of_mem _ (ih h)

theorem findContent_eq_none {d : Dir} {n : String}
    (h : ∀ f ∈ d, f.1 ≠ n) : findContent d n = none := by
  induction d with
  | nil => rfl
  | cons f rest ih =>
      obtain ⟨m, c0⟩ := f
      have hm : m ≠ n := h (m, c0) (List.mem_cons_self _ _)
      rw [findContent_cons, if_neg hm]
      exact ih fun g hg => h g (List.mem_cons_of_mem _ hg)

theorem findContent_of_mem_nodup {d : Dir} {n : String} {c : Content}
    (hmem : (n, c) ∈ d) (hnd : (d.map Prod.fst).Nodup) :
    findContent d n = some c := by
  induction d with
  | nil => exact absurd hmem (by simp)
  | cons f rest ih =>
      obtain ⟨m, c0⟩ := f
      rw [List.map_cons, List.nodup_cons] at hnd
      rw [findContent_cons]
      rcases List.mem_cons.mp hmem with h | h
      · rw [Prod.mk.injEq] at h
        obtain ⟨h1, h2⟩ := h
        subst h1
        rw [if_pos rfl, h2]
      · have hm : m ≠ n := by
          intro hmn
          subst hmn
          exact hnd.1 (List.mem_map.mpr ⟨(m, c), h, rfl⟩)
        rw [if_neg hm]
        exact ih h hnd.2

theorem findContent_append_left {a : Dir} (b : Dir) {n : String} {c : Content}
    (h : findContent a n = some c) : findContent (a ++ b) n = some c := by
  induction a with
  | nil => exact absurd h (by simp [findContent])
  | cons f rest ih =>
      obtain ⟨m, c0⟩ := f
      rw [findContent_cons] at h
      rw [List.cons_append, findContent_cons]
      by_cases hm : m = n
      · rw [if_pos hm] at h ⊢; exact h
      · rw [if_neg hm] at h ⊢; exact ih h

theorem findContent_append_right {a : Dir} (b : Dir) {n : String}
    (h : findContent a n = none) : findContent (a ++ b) n = findContent b n := by
  induction a with
  | nil => rfl
  | cons f rest ih =>
      obtain ⟨m, c0⟩ := f
      rw [findContent_cons] at h
      by_cases hm : m = n
      · rw [if_pos hm] at h; exact absurd h (by simp)
      · rw [if_neg hm] at h
        rw [List.cons_append, findContent_cons, if_neg hm]
        exact ih h

theorem dirWrite_eq_append {d : Dir} {n : String}
    (h : findContent d n = none) (c : Content) : dirWrite d n c = d ++ [(n, c)] := by
  induction d with
  | nil => rfl
  | cons f rest ih =>
      obtain ⟨m, c0⟩ := f
      rw [findContent_cons] at h
      by_cases hm : m = n
      · rw [if_pos hm] at h; exact absurd h (by simp)
      · rw [if_neg hm] at h
        rw [dirWrite_cons, if_neg hm, List.cons_append, ih h]

theorem findContent_dirWrite_self (d : Dir) (n : String) (c : Content) :
    findContent (dirWrite d n c) n = some c := by
  induction d with
  | nil => simp [dirWrite, findContent]
  | cons f rest ih =>
      obtain ⟨m, c0⟩ := f
      rw [dirWrite_cons]
      by_cases hm : m = n
      · rw [if_pos hm, findContent_cons, if_pos rfl]
      · rw [if_neg hm, findContent_cons, if_neg hm]
        exact ih

theorem findContent_dirErase_self (d : Dir) (n : String) :
    findContent (dirErase d n) n = none := by
  apply findContent_eq_none
  intro f hf
  have hp := List.of_mem_filter hf
  simpa using hp

theorem dirErase_cons (m : String) (c0 : Content) (rest : Dir) (n : String) :
    dirErase ((m, c0) :: rest) n
      = if m = n then dirErase rest n else (m, c0) :: dirErase rest n := by
  by_cases hm : m = n
  · have hb : ((m, c0).1 != n) = false := by simp [hm]
    simp [dirErase, List.filter_cons, hb, hm]
  · have hb : ((m, c0).1 != n) = true := by simpa using hm
    simp [dirErase, List.filter_cons, hb, hm]

theorem findContent_dirErase_ne {d : Dir} {n m : String} (h : m ≠ n) :
    findContent (dirErase d n) m = findContent d m := by
  induction d with
  | nil => rfl
  | cons f rest ih =>
      obtain ⟨q, c0⟩ := f
      rw [dirErase_cons]
      by_cases hq : q = n
      · rw [if_pos hq, findContent_cons, if_neg (by rw [hq]; exact fun e => h e.symm)]
        exact ih
      · rw [if_neg hq, findContent_cons, findContent_cons]
        by_cases hqm : q = m
        · rw [if_pos hqm, if_pos hqm]
        · rw [if_neg hqm, if_neg hqm]
          exact ih

theorem dirErase_append (a b : Dir) (n : String) :
    dirErase (a ++ b) n = dirErase a n ++ dirErase b n :=
  List.filter_append a b

theorem dirErase_eq_self {d : Dir} {n : String}
    (h : ∀ f ∈ d, f.1 ≠ n) : dirErase d n = d :=
  List.filter_eq_self.mpr fun f hf => by simpa using h f hf

/-! Claim theorems. -/

/-- C3: the spec says the network tag passed to the address encoder is 1
for mainnet and 0 for testnet, preview and preprod in every generation
mode.  The dictionary used by generate_payment_address,
generate_staking_address, generate_address_candidate and
generate_payment_only_address, and the network_config table of
generate_keys_simplified, do map mainnet to 1 and the test networks to 0,
but the inline expression of generate_keys_with_cardano_address (wallet.py
lines 1546, 1565, 1670) is inverted: it passes "0" for mainnet and "1"
for every other network.  This theorem evaluates the code at the failing
input. -/
theorem claim_C3_network_tag_eval :
    networkTagCardanoAddress "mainnet" = "0"
    ∧ networkTagCardanoAddress "testnet" = "1"
    ∧ networkTagCardanoAddress "preview" = "1"
    ∧ networkTagCardanoAddress "preprod" = "1"
    ∧ networkTag "mainnet" = "1"
    ∧ networkTag "testnet" = "0"
    ∧ networkTag "preview" = "0"
    ∧ networkTag "preprod" = "0"
    ∧ (simplifiedNetworkConfig "mainnet").network_tag = 1
    ∧ (simplifiedNetworkConfig "testnet").network_tag = 0 := by
  decide

/-- C9: for payment-key derivation the branch index of the path
1852H/1815H/0H/branch/0 is 0 exactly for purpose "pledge" and 1 exactly
for purpose "rewards" (the CLI restricts the purpose to these two), and
the non-payment roles walk fixed paths with branches 2 through 8 that take
no purpose parameter at all. -/
theorem claim_C9_derivation_paths (purpose : String)
    (h : purpose = "pledge" ∨ purpose = "rewards") :
    (purposeIndexOf purpose = "0" ↔ purpose = "pledge")
    ∧ (purposeIndexOf purpose = "1" ↔ purpose = "rewards")
    ∧ paymentDerivationPath purpose
        = "1852H/1815H/0H/" ++ purposeIndexOf purpose ++ "/0"
    ∧ stakingDerivationPath = "1852H/1815H/0H/2/0"
    ∧ coldDerivationPath = "1852H/1815H/0H/3/0"
    ∧ hotDerivationPath = "1852H/1815H/0H/4/0"
    ∧ drepDerivationPath = "1852H/1815H/0H/5/0"
    ∧ msPaymentDerivationPath = "1852H/1815H/0H/6/0"
    ∧ msStakeDerivationPath = "1852H/1815H/0H/7/0"
    ∧ msDrepDerivationPath = "1852H/1815H/0H/8/0" := by
  rcases h with h | h <;> subst h <;> exact ⟨by decide, by decide, rfl, rfl, rfl,
    rfl, rfl, rfl, rfl, rfl⟩

/-- Witness for C9 at the two concrete purposes. -/
theorem claim_C9_witness :
    purposeIndexOf "pledge" = "0" ∧ purposeIndexOf "rewards" = "1" :=
  ⟨((claim_C9_derivation_paths "pledge" (Or.inl rfl)).1).mpr rfl,
   ((claim_C9_derivation_paths "rewards" (Or.inr rfl)).2.1).mpr rfl⟩

/-- C6: encrypt_file on an existing file derives the key with
PBKDF2-HMAC-SHA256, output length 32 bytes (256 bits), 100000 iterations
and the fresh 16-byte salt, writes the salt followed by the authenticated
ciphertext under the original name plus ".enc", and deletes the plaintext
original, so the plaintext and encrypted forms do not coexist. -/
theorem claim_C6_encrypt_file (d : Dir) (name password : String)
    (fresh : Bytes) (c : Content)
    (hfind : findContent d name = some c) (hlen : fresh.length = 16) :
    ∃ d2,
      encrypt_file d name password fresh = .ok (d2, ⟨name, name ++ ".enc"⟩)
      ∧ findContent d2 (name ++ ".enc")
          = some (.encBlob fresh ⟨⟨"SHA256", 32, 100000, fresh⟩, password⟩ c)
      ∧ findContent d2 name = none
      ∧ fresh.length = 16 := by
  refine ⟨dirErase (dirWrite d (name ++ ".enc")
      (.encBlob fresh ⟨⟨"SHA256", 32, 100000, fresh⟩, password⟩ c)) name,
    ?_, ?_, ?_, hlen⟩
  · simp only [encrypt_file, hfind, derive_key_from_password, Option.getD]
  · rw [findContent_dirErase_ne (append_enc_ne name)]
    exact findContent_dirWrite_self d _ _
  · exact findContent_dirErase_self _ _

/-- C2: viewing a secured file with a wrong password fails with the
decryption ClickException (a constructor distinct from the file-not-found
error), returns no plaintext, and leaves the directory unchanged.  The
hypothesis states that the target file was produced by encrypt_file under
the password pwSecure with the stored salt. -/
theorem claim_C2_view_wrong_password
    (d : Dir) (fname pwSecure pwView : String) (salt : Bytes) (payload : Content)
    (hfind : findContent d (fname ++ ".enc")
        = some (.encBlob salt (derive_key_from_password pwSecure none salt).1 payload))
    (hpw : pwView ≠ pwSecure) :
    (view_wallet_dir pwView (some fname) d).1 = .error (.viewFailed fname)
    ∧ (view_wallet_dir pwView (some fname) d).2 = d
    ∧ (∀ m, ViewErr.viewFailed fname ≠ ViewErr.secureFileNotFound m) := by
  have hne : encFilter d ≠ [] := by
    apply List.ne_nil_of_mem (a := (fname ++ ".enc",
      Content.encBlob salt (derive_key_from_password pwSecure none salt).1 payload))
    exact List.mem_filter.mpr ⟨findContent_mem hfind, pyEndsWith_append fname ".enc"⟩
  have hdec : decrypt_file d (fname ++ ".enc") pwView = .error .decryptionFailed := by
    simp only [decrypt_file, hfind, derive_key_from_password, Option.getD_some]
    rw [if_neg]
    intro hkey
    rw [FernetKey.mk.injEq] at hkey
    exact hpw hkey.2
  refine ⟨?_, ?_, fun m h => ViewErr.noConfusion h⟩ <;>
    simp [view_wallet_dir, hne, hfind, hdec]

/-- Witness directory for C2: one file secured under the password
"right". -/
def dC2 : Dir :=
  [("mnemonic.txt.enc",
    .encBlob (List.replicate 16 2)
      ⟨⟨"SHA256", 32, 100000, List.replicate 16 2⟩, "right"⟩ (.plain [9]))]

/-- Witness for C2 at a concrete secured directory and wrong password. -/
theorem claim_C2_witness :
    (view_wallet_dir "wrong" (some "mnemonic.txt") dC2).1
        = .error (.viewFailed "mnemonic.txt")
    ∧ (view_wallet_dir "wrong" (some "mnemonic.txt") dC2).2 = dC2 := by
  have h := claim_C2_view_wrong_password dC2 "mnemonic.txt" "right" "wrong"
    (List.replicate 16 2) (.plain [9]) (by decide) (by decide)
  exact ⟨h.1, h.2.1⟩

/-- Salt supply for the concrete secure runs below. -/
def saltGenC : Nat → Bytes := fun _ => List.replicate 16 0

/-- The concrete directory of the C7 scenario: exactly the files
payment.skey and mnemonic.txt. -/
def dC7 : Dir := [("payment.skey", .plain [1, 2]), ("mnemonic.txt", .plain [3, 4])]

/-- C7, counterexample: on a directory containing exactly payment.skey and
mnemonic.txt, secure with password "p1" produces exactly one encrypted
file, not two: the bare name mnemonic.txt does not match the sensitivity
pattern star .mnemonic.txt, so it is left as plaintext. -/
theorem claim_C7_counterexample :
    (secure_wallet_dir "p1" saltGenC dC7).1 = none
    ∧ ¬ ((encFilter (secure_wallet_dir "p1" saltGenC dC7).2.1).length = 2)
    ∧ (encFilter (secure_wallet_dir "p1" saltGenC dC7).2.1).length = 1
    ∧ pyEndsWith "mnemonic.txt" ".mnemonic.txt" = false
    ∧ findContent (secure_wallet_dir "p1" saltGenC dC7).2.1 "mnemonic.txt"
        = some (.plain [3, 4]) := by
  decide

/-- C7, amended: secure "p1" on a directory with exactly payment.skey and
mnemonic.txt succeeds with secured_count 1, produces exactly one encrypted
file payment.skey.enc, removes the plaintext payment.skey, leaves zero
files matching the code's sensitivity patterns, and keeps mnemonic.txt as
plaintext. -/
theorem claim_C7_amended :
    (secure_wallet_dir "p1" saltGenC dC7).1 = none
    ∧ (secure_wallet_dir "p1" saltGenC dC7).2.2 = 1
    ∧ (encFilter (secure_wallet_dir "p1" saltGenC dC7).2.1).length = 1
    ∧ findContent (secure_wallet_dir "p1" saltGenC dC7).2.1 "payment.skey.enc"
        = some (.encBlob (List.replicate 16 0)
            ⟨⟨"SHA256", 32, 100000, List.replicate 16 0⟩, "p1"⟩ (.plain [1, 2]))
    ∧ findContent (secure_wallet_dir "p1" saltGenC dC7).2.1 "payment.skey" = none
    ∧ get_sensitive_files (secure_wallet_dir "p1" saltGenC dC7).2.1 = []
    ∧ findContent (secure_wallet_dir "p1" saltGenC dC7).2.1 "mnemonic.txt"
        = some (.plain [3, 4]) := by
  decide

/-- Number of whitespace-separated words of a phrase, as the repository's
own test counts them (test_cli.py, test_mnemonic): count the maximal runs
of non-whitespace characters. -/
def wordCountAux : List Char -> Bool -> Nat
  | [], _ => 0
  | c :: rest, inWord =>
      if c.isWhitespace then wordCountAux rest false
      else (if inWord then 0 else 1) + wordCountAux rest true

def wordCount (s : String) : Nat :=
  wordCountAux s.data false

/-- C8: get_or_create_shared_mnemonic called twice returns the identical
phrase both times; the first call returns the persisted phrase trimmed if
one exists (leaving the state unchanged), and otherwise persists the fresh
24-word phrase with owner-only permissions 0o600 and returns it.  The
hypotheses are the contract of the external BIP39 generator: the fresh
phrase carries no surrounding whitespace and has 24 words. -/
theorem claim_C8_get_or_create (fresh1 fresh2 : String) (s : GenState)
    (htrim : pyStrip fresh1 = fresh1) (h24 : wordCount fresh1 = 24) :
    (get_or_create_shared_mnemonic fresh1 s).1
      = (get_or_create_shared_mnemonic fresh2
          (get_or_create_shared_mnemonic fresh1 s).2).1
    ∧ (∀ c m, s.shared = some (c, m) →
        (get_or_create_shared_mnemonic fresh1 s).1 = pyStrip c
        ∧ (get_or_create_shared_mnemonic fresh1 s).2 = s)
    ∧ (s.shared = none →
        (get_or_create_shared_mnemonic fresh1 s).1 = fresh1
        ∧ (get_or_create_shared_mnemonic fresh1 s).2.shared
            = some (fresh1, 0o600)
        ∧ wordCount (get_or_create_shared_mnemonic fresh1 s).1 = 24) := by
  rcases hs : s.shared with _ | ⟨c, m⟩
  · refine ⟨?_, ?_, ?_⟩
    · simp [get_or_create_shared_mnemonic, hs, htrim]
    · intro c m hcm
      exact absurd hcm (by simp)
    · intro _
      simp [get_or_create_shared_mnemonic, hs, h24]
  · refine ⟨?_, ?_, ?_⟩
    · simp [get_or_create_shared_mnemonic, hs]
    · intro c2 m2 hcm
      obtain ⟨h1, h2⟩ : c = c2 ∧ m = m2 := by
        have hp := Option.some.inj hcm
        exact ⟨congrArg Prod.fst hp, congrArg Prod.snd hp⟩
      subst h1
      simp [get_or_create_shared_mnemonic, hs]
    · intro hnone
      exact absurd hnone (by simp)

/-- A concrete 24-word phrase for the C8 witness. -/
def phrase24 : String :=
  "a b c d e f g h i j k l m n o p q r s t u v w x"

/-- Witness for C8: on an empty state the first call persists and returns
the fresh phrase and the second call returns the same phrase. -/
theorem claim_C8_witness :
    (get_or_create_shared_mnemonic phrase24 ⟨none, []⟩).1
      = (get_or_create_shared_mnemonic "other phrase"
          (get_or_create_shared_mnemonic phrase24 ⟨none, []⟩).2).1
    ∧ (get_or_create_shared_mnemonic phrase24 ⟨none, []⟩).1 = phrase24 := by
  have h := claim_C8_get_or_create phrase24 "other phrase" ⟨none, []⟩
    (by decide) (by decide)
  exact ⟨h.1, (h.2.2 rfl).1⟩

/-- Witness for C6 on a concrete one-file directory. -/
theorem claim_C6_witness :
    ∃ d2,
      encrypt_file [("k.skey", .plain [7])] "k.skey" "pw" (List.replicate 16 1)
          = .ok (d2, ⟨"k.skey", "k.skey" ++ ".enc"⟩)
      ∧ findContent d2 ("k.skey" ++ ".enc")
          = some (.encBlob (List.replicate 16 1)
              ⟨⟨"SHA256", 32, 100000, List.replicate 16 1⟩, "pw"⟩ (.plain [7]))
      ∧ findContent d2 "k.skey" = none
      ∧ (List.replicate 16 1).length = 16 :=
  claim_C6_encrypt_file [("k.skey", .plain [7])] "k.skey" "pw"
    (List.replicate 16 1) (.plain [7]) (by decide) (by decide)

/-! Lemmas about the generation pipeline. -/

theorem get_or_create_walletFiles (fresh : String) (s : GenState) :
    (get_or_create_shared_mnemonic fresh s).2.walletFiles = s.walletFiles := by
  rcases hs : s.shared with _ | ⟨c, m⟩ <;>
    simp [get_or_create_shared_mnemonic, hs]

theorem get_or_create_fst_congr (f : String) {s s2 : GenState}
    (h : s.shared = s2.shared) :
    (get_or_create_shared_mnemonic f s).1
      = (get_or_create_shared_mnemonic f s2).1 := by
  unfold get_or_create_shared_mnemonic
  rw [h]
  rcases hs : s2.shared with _ | ⟨c, m⟩ <;> rfl

theorem get_or_create_stable (f1 f2 : String) (s : GenState)
    (htrim : pyStrip f1 = f1) :
    (get_or_create_shared_mnemonic f2 (get_or_create_shared_mnemonic f1 s).2).1
      = (get_or_create_shared_mnemonic f1 s).1 := by
  rcases hs : s.shared with _ | ⟨c, m⟩ <;>
    simp [get_or_create_shared_mnemonic, hs, htrim]

/-- Behaviour of generate_wallet common to every outcome: the shared
mnemonic file is exactly what get_or_create_shared_mnemonic left, a failing
run writes nothing to the wallet directory, and a successful run returns
the shared phrase and equal address candidates. -/
theorem generate_wallet_spec (env : GenEnv) (t p n : String) (s : GenState) :
    (generate_wallet env t p n s).2.shared
        = (get_or_create_shared_mnemonic env.freshMnemonic s).2.shared
    ∧ (∀ e, (generate_wallet env t p n s).1 = .error e →
        (generate_wallet env t p n s).2.walletFiles = s.walletFiles)
    ∧ (∀ w, (generate_wallet env t p n s).1 = .ok w →
        w.mnemonic = (get_or_create_shared_mnemonic env.freshMnemonic s).1
        ∧ w.base_addr = w.base_addr_candidate
        ∧ w.reward_addr = w.reward_addr_candidate) := by
  have hwf := get_or_create_walletFiles env.freshMnemonic s
  rcases hG : generate_wallet env t p n s with ⟨res, st⟩
  simp only [generate_wallet] at hG
  repeat' split at hG
  all_goals injection hG with h1 h2
  all_goals subst h2
  all_goals
    first
      | exact ⟨rfl, fun e he => hwf, fun w hw => absurd (h1 ▸ hw) (by simp)⟩
      | (refine ⟨rfl, fun e he => absurd (h1 ▸ he) (by simp), fun w hw => ?_⟩
         obtain rfl := Except.ok.inj (h1 ▸ hw)
         refine ⟨rfl, ?_, ?_⟩ <;> simp_all [verify_address_candidates])

theorem simple_generate_wallet_mnemonic (se : SimpleEnv) (t p n : String)
    (s : GenState) :
    ∀ w, (simple_generate_wallet se t p n s).1 = .ok w →
      w.mnemonic = se.freshMnemonic := by
  intro w hw
  rcases hG : simple_generate_wallet se t p n s with ⟨res, st⟩
  rw [hG] at hw
  simp only at hw
  simp only [simple_generate_wallet] at hG
  repeat' split at hG
  all_goals injection hG with h1 h2
  all_goals rw [← h1] at hw
  all_goals first
    | exact absurd hw (fun hcon => Except.noConfusion hcon)
    | (obtain rfl := Except.ok.inj hw; rfl)

/-- C5: during real-mode wallet generation every produced address is
recomputed a second time through the identical backend call sequence
(generate_address_candidate is extensionally the same function as
generate_payment_address, issuing the same tool invocations); exact string
equality between address and candidate is required for success, and any
failing run, the mismatch ClickExceptions included, aborts before a single
wallet file is written. -/
theorem claim_C5_candidate_verification :
    (∀ (env : GenEnv) (k : Nat) (pv sv nw : String),
      generate_address_candidate env k pv sv nw
        = generate_payment_address env k pv sv nw)
    ∧ ∀ (env : GenEnv) (t p n : String) (s : GenState),
        (∀ e, (generate_wallet env t p n s).1 = .error e →
          (generate_wallet env t p n s).2.walletFiles = s.walletFiles)
        ∧ (∀ w, (generate_wallet env t p n s).1 = .ok w →
            w.base_addr = w.base_addr_candidate
            ∧ w.reward_addr = w.reward_addr_candidate) := by
  refine ⟨fun env k pv sv nw => rfl, fun env t p n s => ⟨?_, ?_⟩⟩
  · exact (generate_wallet_spec env t p n s).2.1
  · intro w hw
    exact ((generate_wallet_spec env t p n s).2.2 w hw).2

/-- Deterministic successful tool oracle: every call answers "A". -/
def envOkC : GenEnv :=
  { run := fun _ _ => ⟨0, "A", ""⟩
    freshMnemonic := "m"
    sha256 := fun _ => []
    bech32_decode := fun _ => some ("addr", []) }

/-- Diverging tool oracle: the delegation call of the candidate
recomputation (call index 11) answers "B", everything else "A". -/
def envDivC : GenEnv :=
  { run := fun k _ => ⟨0, if k = 11 then "B" else "A", ""⟩
    freshMnemonic := "m"
    sha256 := fun _ => []
    bech32_decode := fun _ => some ("addr", []) }

/-- Witness for C5: under the diverging oracle the run aborts with the
base-address mismatch and the wallet directory stays empty, and the
candidate recomputation is the identical call sequence. -/
theorem claim_C5_witness :
    (generate_wallet envDivC "T" "pledge" "mainnet" ⟨none, []⟩).1
        = .error .baseAddrMismatch
    ∧ (generate_wallet envDivC "T" "pledge" "mainnet" ⟨none, []⟩).2.walletFiles
        = []
    ∧ generate_address_candidate envDivC 0 "a" "b" "mainnet"
        = generate_payment_address envDivC 0 "a" "b" "mainnet" := by
  refine ⟨rfl, ?_, ?_⟩
  · exact (claim_C5_candidate_verification.2 envDivC "T" "pledge" "mainnet"
      ⟨none, []⟩).1 .baseAddrMismatch rfl
  · exact claim_C5_candidate_verification.1 envDivC 0 "a" "b" "mainnet"

/-- C4 (amended): in the real-tools generator every run for a ticker uses
the single persisted per-ticker phrase, so two successful runs return the
identical phrase even when the external generator would have produced
different fresh phrases; the simplified generator instead uses the fresh
phrase of each run and never consults the persisted one. -/
theorem claim_C4_amended :
    (∀ (e1 e2 : GenEnv) (t p n p2 n2 : String) (s : GenState),
      pyStrip e1.freshMnemonic = e1.freshMnemonic →
      ∀ w1 w2, (generate_wallet e1 t p n s).1 = .ok w1 →
        (generate_wallet e2 t p2 n2 (generate_wallet e1 t p n s).2).1 = .ok w2 →
        w1.mnemonic = w2.mnemonic)
    ∧ (∀ (se : SimpleEnv) (t p n : String) (s : GenState) w,
        (simple_generate_wallet se t p n s).1 = .ok w →
        w.mnemonic = se.freshMnemonic) := by
  constructor
  · intro e1 e2 t p n p2 n2 s htrim w1 w2 h1 h2
    have hm1 := ((generate_wallet_spec e1 t p n s).2.2 w1 h1).1
    have hm2 := ((generate_wallet_spec e2 t p2 n2
      (generate_wallet e1 t p n s).2).2.2 w2 h2).1
    rw [hm1, hm2]
    rw [get_or_create_fst_congr e2.freshMnemonic
      (generate_wallet_spec e1 t p n s).1]
    exact (get_or_create_stable e1.freshMnemonic e2.freshMnemonic s htrim).symm
  · intro se t p n s w hw
    exact simple_generate_wallet_mnemonic se t p n s w hw

/-- Simplified-mode environment for the C4 counterexample: the fresh BIP39
phrase is "beta" and the external encoders are trivial but succeed. -/
def envSimpleC4 : SimpleEnv :=
  { freshMnemonic := "beta"
    to_seed := fun _ => []
    pbkdf2_sha512 := fun _ _ _ _ => []
    sha256 := fun _ => []
    convertbits := fun _ => some []
    bech32_encode := fun hrp _ => some (hrp ++ "1x") }

/-- C4, counterexample: with the per-ticker phrase "alpha" already
persisted, a simplified-mode generation run produces and uses the fresh
phrase "beta" instead of loading "alpha", so not every generation run
reuses the persisted per-ticker phrase. -/
theorem claim_C4_counterexample :
    (simple_generate_wallet envSimpleC4 "TEST" "pledge" "mainnet"
        ⟨some ("alpha", 0o600), []⟩).1
      = .ok ⟨"addr1x", "stake1x", "", "", "beta"⟩
    ∧ (get_or_create_shared_mnemonic "anything"
        ⟨some ("alpha", 0o600), []⟩).1 = "alpha"
    ∧ ("beta" : String) ≠ "alpha" :=
  ⟨rfl, by decide, by decide⟩

/-- Witness for C4 (amended): two successive real-mode runs on an empty
state both succeed and return the same phrase. -/
theorem claim_C4_witness :
    ∃ w1 w2,
      (generate_wallet envOkC "T" "pledge" "mainnet" ⟨none, []⟩).1 = .ok w1
      ∧ (generate_wallet envOkC "T" "rewards" "mainnet"
          (generate_wallet envOkC "T" "pledge" "mainnet" ⟨none, []⟩).2).1
            = .ok w2
      ∧ w1.mnemonic = w2.mnemonic := by
  refine ⟨⟨"A", "A", "A", "A", "A", "A", "A", "A", "m"⟩,
    ⟨"A", "A", "A", "A", "A", "A", "A", "A", "m"⟩, rfl, rfl, ?_⟩
  exact claim_C4_amended.1 envOkC envOkC "T" "pledge" "mainnet" "rewards"
    "mainnet" ⟨none, []⟩ (by decide) _ _ rfl rfl

/-- C10: every public operation resolves the per-ticker wallet directory
from the uppercased ticker, and the operations of the tools layer are
functions of the ticker only through that uppercasing, so any two casings
with the same uppercase image behave identically. -/
theorem claim_C10_ticker_casing (t1 t2 : String) (h : pyUpper t1 = pyUpper t2)
    (purpose password network : String) (saltGen : Nat → Bytes) (fs : FS)
    (specific : Option String) (env : GenEnv) (se : SimpleEnv) (s : GenState) :
    wallet_dir_path t1 purpose = wallet_dir_path t2 purpose
    ∧ secure_wallet_files t1 purpose password saltGen fs
        = secure_wallet_files t2 purpose password saltGen fs
    ∧ view_wallet_files t1 purpose password specific fs
        = view_wallet_files t2 purpose password specific fs
    ∧ restore_wallet_files t1 purpose password fs
        = restore_wallet_files t2 purpose password fs
    ∧ generate_wallet env t1 purpose network s
        = generate_wallet env t2 purpose network s
    ∧ simple_generate_wallet se t1 purpose network s
        = simple_generate_wallet se t2 purpose network s := by
  have hd : wallet_dir_path t1 purpose = wallet_dir_path t2 purpose := by
    unfold wallet_dir_path
    rw [h]
  refine ⟨hd, ?_, ?_, ?_, ?_, ?_⟩
  · unfold secure_wallet_files
    rw [hd]
  · unfold view_wallet_files
    rw [hd]
  · unfold restore_wallet_files
    rw [hd]
  · unfold generate_wallet
    rw [h]
  · unfold simple_generate_wallet
    rw [h]

/-- Witness for C10 with the casings "ada" and "AdA". -/
theorem claim_C10_witness :
    pyUpper "ada" = pyUpper "AdA"
    ∧ wallet_dir_path "ada" "pledge" = wallet_dir_path "AdA" "pledge"
    ∧ secure_wallet_files "ada" "pledge" "p" saltGenC []
        = secure_wallet_files "AdA" "pledge" "p" saltGenC []
    ∧ generate_wallet envOkC "ada" "pledge" "mainnet" ⟨none, []⟩
        = generate_wallet envOkC "AdA" "pledge" "mainnet" ⟨none, []⟩ := by
  have h := claim_C10_ticker_casing "ada" "AdA" (by decide) "pledge" "p"
    "mainnet" saltGenC [] none envOkC envSimpleC4 ⟨none, []⟩
  exact ⟨by decide, h.1, h.2.1, h.2.2.2.2.1⟩

/-! Characterization of the secure and restore loops, for the round-trip
claim. -/

/-- Name membership as a boolean. -/
def nameIn (ns : List String) (x : String) : Bool :=
  decide (x ∈ ns)

/-- The encrypted entry that the i-th encryption of a secure run writes
for an original file. -/
def encEntryAt (pw : String) (g : Nat → Bytes) (i : Nat)
    (p : String × Content) : String × Content :=
  (p.1 ++ ".enc", .encBlob (g i) ⟨⟨"SHA256", 32, 100000, g i⟩, pw⟩ p.2)

/-- The encrypted entries a secure run appends for a list of original
files, starting at salt index i. -/
def encListFrom (pw : String) (g : Nat → Bytes) :
    List (String × Content) → Nat → List (String × Content)
  | [], _ => []
  | p :: rest, i => encEntryAt pw g i p :: encListFrom pw g rest (i + 1)

/-- The payload inside a ciphertext (the content itself when plain). -/
def payloadOf : Content → Content
  | .plain b => .plain b
  | .encBlob _ _ c => c

theorem nameIn_cons (n x : String) (ns : List String) :
    nameIn (n :: ns) x = ((x = n : Bool) || nameIn ns x) := by
  by_cases h1 : x = n <;> by_cases h2 : x ∈ ns <;> simp [nameIn, h1, h2]

theorem nameIn_eq_false {ns : List String} {x : String} (h : x ∉ ns) :
    nameIn ns x = false := by
  simp [nameIn, h]

theorem nameIn_eq_true {ns : List String} {x : String} (h : x ∈ ns) :
    nameIn ns x = true := by
  simp [nameIn, h]

theorem encListFrom_map_fst (pw : String) (g : Nat → Bytes) :
    ∀ (l : List (String × Content)) (i : Nat),
      (encListFrom pw g l i).map Prod.fst = l.map (fun p => p.1 ++ ".enc") := by
  intro l
  induction l with
  | nil => intro i; rfl
  | cons p rest ih =>
      intro i
      simp only [encListFrom, List.map_cons, encEntryAt, ih]

theorem encListFrom_mem (pw : String) (g : Nat → Bytes) :
    ∀ (l : List (String × Content)) (i : Nat) (q : String × Content),
      q ∈ encListFrom pw g l i → ∃ p ∈ l, ∃ j, q = encEntryAt pw g j p := by
  intro l
  induction l with
  | nil => intro i q hq; exact absurd hq (by simp [encListFrom])
  | cons p rest ih =>
      intro i q hq
      rcases List.mem_cons.mp hq with h | h
      · exact ⟨p, List.mem_cons_self _ _, i, h⟩
      · obtain ⟨p2, hp2, j, hj⟩ := ih (i + 1) q h
        exact ⟨p2, List.mem_cons_of_mem _ hp2, j, hj⟩

theorem encListFrom_restore (pw : String) (g : Nat → Bytes) :
    ∀ (l : List (String × Content)) (i : Nat),
      (∀ p ∈ l, p.1 ≠ "") →
      (encListFrom pw g l i).map (fun q => (stemEnc q.1, payloadOf q.2)) = l := by
  intro l
  induction l with
  | nil => intro i _; rfl
  | cons p rest ih =>
      intro i hne
      obtain ⟨n, c⟩ := p
      simp only [encListFrom, List.map_cons]
      rw [ih (i + 1) fun q hq => hne q (List.mem_cons_of_mem _ hq)]
      show (stemEnc (n ++ ".enc"), c) :: rest = (n, c) :: rest
      rw [stemEnc_append n (hne (n, c) (List.mem_cons_self _ _))]

theorem encListFrom_stems (pw : String) (g : Nat → Bytes)
    (l : List (String × Content)) (i : Nat)
    (hne : ∀ p ∈ l, p.1 ≠ "") :
    (encListFrom pw g l i).map (fun q => stemEnc q.1) = l.map Prod.fst := by
  have h := congrArg (List.map Prod.fst) (encListFrom_restore pw g l i hne)
  simpa [Function.comp] using h

/-- One step of the secure loop: encrypting an existing original appends
the encrypted entry and drops the original. -/
theorem secureFilesLoop_struct (pw : String) (g : Nat → Bytes) :
    ∀ (todo : List (String × Content)) (i : Nat) (d : Dir)
      (recs : List EncRecord),
    (∀ p ∈ todo, findContent d p.1 = some p.2) →
    (∀ p ∈ todo, findContent d (p.1 ++ ".enc") = none) →
    (∀ p ∈ todo, pyEndsWith p.1 ".enc" = false) →
    (todo.map Prod.fst).Nodup →
    secureFilesLoop pw g todo i d recs
      = (none,
         d.filter (fun f => !(nameIn (todo.map Prod.fst) f.1))
           ++ encListFrom pw g todo i,
         recs ++ todo.map fun p => ⟨p.1, p.1 ++ ".enc"⟩) := by
  intro todo
  induction todo with
  | nil =>
      intro i d recs _ _ _ _
      simp [secureFilesLoop, encListFrom, nameIn]
  | cons p rest ih =>
      intro i d recs hpres hfree hne hnd
      obtain ⟨n, c⟩ := p
      have hp : findContent d n = some c := hpres (n, c) (List.mem_cons_self _ _)
      have hpfree : findContent d (n ++ ".enc") = none :=
        hfree (n, c) (List.mem_cons_self _ _)
      have hpne : pyEndsWith n ".enc" = false := hne (n, c) (List.mem_cons_self _ _)
      rw [List.map_cons, List.nodup_cons] at hnd
      have hstep : secureFilesLoop pw g ((n, c) :: rest) i d recs
          = secureFilesLoop pw g rest (i + 1)
              (dirErase d n ++ [encEntryAt pw g i (n, c)]) (recs ++ [⟨n, n ++ ".enc"⟩]) := by
        simp only [secureFilesLoop, encrypt_file, hp, derive_key_from_password,
          Option.getD_none]
        rw [dirWrite_eq_append hpfree, dirErase_append]
        have hkeep : dirErase [(n ++ ".enc",
            Content.encBlob (g i) ⟨⟨"SHA256", 32, 100000, g i⟩, pw⟩ c)] n
            = [(n ++ ".enc",
                Content.encBlob (g i) ⟨⟨"SHA256", 32, 100000, g i⟩, pw⟩ c)] :=
          dirErase_eq_self fun f hf => by
            rcases List.mem_singleton.mp hf with rfl
            exact append_enc_ne n
        rw [hkeep]
        rfl
      rw [hstep]
      have hq_ne_n : ∀ q ∈ rest, q.1 ≠ n := by
        intro q hq hqn
        exact hnd.1 (hqn ▸ List.mem_map.mpr ⟨q, hq, rfl⟩)
      have hqenc_ne_n : ∀ (x : String), pyEndsWith x ".enc" = true → x ≠ n := by
        intro x hx hxn
        rw [hxn, hpne] at hx
        exact Bool.false_ne_true hx
      have ih2 := ih (i + 1) (dirErase d n ++ [encEntryAt pw g i (n, c)])
        (recs ++ [⟨n, n ++ ".enc"⟩])
        (by
          intro q hq
          apply findContent_append_left
          rw [findContent_dirErase_ne (hq_ne_n q hq)]
          exact hpres q (List.mem_cons_of_mem _ hq))
        (by
          intro q hq
          have h1 : findContent (dirErase d n) (q.1 ++ ".enc") = none := by
            rw [findContent_dirErase_ne
              (hqenc_ne_n (q.1 ++ ".enc") (pyEndsWith_append q.1 ".enc"))]
            exact hfree q (List.mem_cons_of_mem _ hq)
          rw [findContent_append_right _ h1]
          apply findContent_eq_none
          intro f hf
          rcases List.mem_singleton.mp hf with rfl
          simp only [encEntryAt]
          intro hcon
          exact hq_ne_n q hq (append_enc_inj hcon).symm)
        (fun q hq => hne q (List.mem_cons_of_mem _ hq))
        hnd.2
      rw [ih2]
      have hfilter : (dirErase d n ++ [encEntryAt pw g i (n, c)]).filter
            (fun f => !(nameIn (rest.map Prod.fst) f.1))
          = d.filter (fun f => !(nameIn (((n, c) :: rest).map Prod.fst) f.1))
            ++ [encEntryAt pw g i (n, c)] := by
        rw [List.filter_append]
        have hone : ([encEntryAt pw g i (n, c)]).filter
              (fun f => !(nameIn (rest.map Prod.fst) f.1))
            = [encEntryAt pw g i (n, c)] := by
          apply List.filter_eq_self.mpr
          intro f hf
          rcases List.mem_singleton.mp hf with rfl
          simp only [encEntryAt, Bool.not_eq_eq_eq_not, Bool.not_true]
          apply nameIn_eq_false
          intro hmem
          obtain ⟨q, hq, hq2⟩ := List.mem_map.mp hmem
          have hqenc : pyEndsWith q.1 ".enc" = true := by
            rw [hq2]
            exact pyEndsWith_append n ".enc"
          rw [hne q (List.mem_cons_of_mem _ hq)] at hqenc
          exact Bool.false_ne_true hqenc
        rw [hone]
        congr 1
        show (d.filter fun f => f.1 != n).filter _ = _
        rw [List.filter_filter]
        apply List.filter_congr
        intro f hf
        rw [List.map_cons, nameIn_cons]
        by_cases h1 : f.1 = n <;> by_cases h2 : nameIn (rest.map Prod.fst) f.1 <;>
          simp [h1, h2]
      rw [hfilter, List.append_assoc, List.singleton_append]
      rw [List.append_assoc, List.singleton_append]
      rfl

theorem sens_mem {d : Dir} {p : String × Content}
    (h : p ∈ get_sensitive_files d) :
    p ∈ d ∧ (pyEndsWith p.1 ".skey" = true
      ∨ pyEndsWith p.1 ".mnemonic.txt" = true) := by
  rcases List.mem_append.mp h with h1 | h1
  · have h2 := List.of_mem_filter h1
    exact ⟨List.mem_of_mem_filter h1, Or.inl h2⟩
  · have h2 := List.of_mem_filter h1
    exact ⟨List.mem_of_mem_filter h1, Or.inr h2⟩

theorem sens_not_enc {d : Dir} {p : String × Content}
    (h : p ∈ get_sensitive_files d) : pyEndsWith p.1 ".enc" = false := by
  rcases (sens_mem h).2 with h1 | h1
  · exact skey_not_enc h1
  · exact mnemonic_not_enc h1

theorem sens_name_ne_empty {d : Dir} {p : String × Content}
    (h : p ∈ get_sensitive_files d) : p.1 ≠ "" := by
  rcases (sens_mem h).2 with h1 | h1
  · exact pyEndsWith_ne_empty h1 (by decide)
  · exact pyEndsWith_ne_empty h1 (by decide)

theorem sens_names_nodup {d : Dir} (hnd : (d.map Prod.fst).Nodup) :
    ((get_sensitive_files d).map Prod.fst).Nodup := by
  unfold get_sensitive_files
  rw [List.map_append]
  apply List.Nodup.append
  · exact (((List.filter_sublist d).map Prod.fst)).nodup hnd
  · exact (((List.filter_sublist d).map Prod.fst)).nodup hnd
  · intro x hx1 hx2
    obtain ⟨p, hp, hpx⟩ := List.mem_map.mp hx1
    obtain ⟨q, hq, hqx⟩ := List.mem_map.mp hx2
    have h1 := List.of_mem_filter hp
    have h2 := List.of_mem_filter hq
    rw [hpx] at h1
    rw [hqx] at h2
    exact skey_mnemonic_conflict h1 h2

/-- Structure of a successful secure run on a directory holding no
pre-existing .enc entries: the sensitive originals are replaced in place
by nothing and their encrypted entries are appended in order. -/
theorem secure_wallet_dir_spec (pw : String) (g : Nat → Bytes) (d : Dir)
    (hnd : (d.map Prod.fst).Nodup)
    (hnoenc : ∀ f ∈ d, pyEndsWith f.1 ".enc" = false)
    (hs : get_sensitive_files d ≠ []) :
    secure_wallet_dir pw g d
      = (none,
         d.filter (fun f =>
           !(nameIn ((get_sensitive_files d).map Prod.fst) f.1))
           ++ encListFrom pw g (get_sensitive_files d) 0,
         (get_sensitive_files d).length) := by
  have hloop := secureFilesLoop_struct pw g (get_sensitive_files d) 0 d []
    (fun p hp => findContent_of_mem_nodup (by
      have hm := (sens_mem hp).1
      exact (Prod.mk.eta (p := p)) ▸ hm) hnd)
    (fun p hp => findContent_eq_none (by
      intro f hf hfe
      have hfenc : pyEndsWith f.1 ".enc" = true := by
        rw [hfe]
        exact pyEndsWith_append p.1 ".enc"
      rw [hnoenc f hf] at hfenc
      exact Bool.false_ne_true hfenc))
    (fun p hp => sens_not_enc hp)
    (sens_names_nodup hnd)
  unfold secure_wallet_dir
  rw [if_neg hs, hloop]
  simp [List.length_map]

/-- One step of the restore loop: decrypting an encrypted entry written
under the same password appends the plaintext entry and drops the
encrypted one. -/
theorem restoreFilesLoop_struct (pw : String) :
    ∀ (todo : List (String × Content)) (d : Dir) (restored : List String),
    (∀ p ∈ todo, findContent d p.1 = some p.2) →
    (∀ p ∈ todo, ∃ salt c,
      p.2 = .encBlob salt ⟨⟨"SHA256", 32, 100000, salt⟩, pw⟩ c) →
    (∀ p ∈ todo, pyEndsWith p.1 ".enc" = true) →
    (∀ p ∈ todo, pyEndsWith (stemEnc p.1) ".enc" = false) →
    (∀ p ∈ todo, findContent d (stemEnc p.1) = none) →
    (todo.map Prod.fst).Nodup →
    (todo.map fun p => stemEnc p.1).Nodup →
    restoreFilesLoop pw todo d restored
      = (none,
         d.filter (fun f => !(nameIn (todo.map Prod.fst) f.1))
           ++ todo.map (fun p => (stemEnc p.1, payloadOf p.2)),
         restored ++ todo.map fun p => stemEnc p.1) := by
  intro todo
  induction todo with
  | nil =>
      intro d restored _ _ _ _ _ _ _
      simp [restoreFilesLoop, nameIn]
  | cons p rest ih =>
      intro d restored hpres hkey hencT hstemF hstemNone hnd hndS
      obtain ⟨m, blob⟩ := p
      obtain ⟨salt, c, rfl⟩ := hkey (m, blob) (List.mem_cons_self _ _)
      have hp : findContent d m
          = some (.encBlob salt ⟨⟨"SHA256", 32, 100000, salt⟩, pw⟩ c) :=
        hpres _ (List.mem_cons_self _ _)
      have hmenc : pyEndsWith m ".enc" = true := hencT _ (List.mem_cons_self _ _)
      have hstem : pyEndsWith (stemEnc m) ".enc" = false :=
        hstemF _ (List.mem_cons_self _ _)
      have hstemN : findContent d (stemEnc m) = none :=
        hstemNone _ (List.mem_cons_self _ _)
      rw [List.map_cons, List.nodup_cons] at hnd
      rw [List.map_cons, List.nodup_cons] at hndS
      have hstem_ne_m : stemEnc m ≠ m := by
        intro hc
        rw [hc, hmenc] at hstem
        exact Bool.false_ne_true hstem.symm
      have hdec : decrypt_file d m pw = .ok c := by
        simp [decrypt_file, hp, derive_key_from_password]
      have hstep : restoreFilesLoop pw ((m,
            Content.encBlob salt ⟨⟨"SHA256", 32, 100000, salt⟩, pw⟩ c) :: rest)
            d restored
          = restoreFilesLoop pw rest
              (dirErase d m ++ [(stemEnc m, c)]) (restored ++ [stemEnc m]) := by
        simp only [restoreFilesLoop, hdec]
        rw [dirWrite_eq_append hstemN, dirErase_append]
        have hkeep : dirErase [(stemEnc m, c)] m = [(stemEnc m, c)] :=
          dirErase_eq_self fun f hf => by
            rcases List.mem_singleton.mp hf with rfl
            exact hstem_ne_m
        rw [hkeep]
      rw [hstep]
      have hq_ne_m : ∀ q ∈ rest, q.1 ≠ m := by
        intro q hq hqm
        exact hnd.1 (hqm ▸ List.mem_map.mpr ⟨q, hq, rfl⟩)
      have hqstem_ne_m : ∀ q ∈ rest, stemEnc q.1 ≠ m := by
        intro q hq hc
        have h1 := hstemF q (List.mem_cons_of_mem _ hq)
        rw [hc, hmenc] at h1
        exact Bool.false_ne_true h1.symm
      have hq_ne_stem : ∀ q ∈ rest, q.1 ≠ stemEnc m := by
        intro q hq hc
        have h1 := hencT q (List.mem_cons_of_mem _ hq)
        rw [hc, hstem] at h1
        exact Bool.false_ne_true h1
      have ih2 := ih (dirErase d m ++ [(stemEnc m, c)]) (restored ++ [stemEnc m])
        (by
          intro q hq
          apply findContent_append_left
          rw [findContent_dirErase_ne (hq_ne_m q hq)]
          exact hpres q (List.mem_cons_of_mem _ hq))
        (fun q hq => hkey q (List.mem_cons_of_mem _ hq))
        (fun q hq => hencT q (List.mem_cons_of_mem _ hq))
        (fun q hq => hstemF q (List.mem_cons_of_mem _ hq))
        (by
          intro q hq
          have h1 : findContent (dirErase d m) (stemEnc q.1) = none := by
            rw [findContent_dirErase_ne (hqstem_ne_m q hq)]
            exact hstemNone q (List.mem_cons_of_mem _ hq)
          rw [findContent_append_right _ h1]
          apply findContent_eq_none
          intro f hf
          rcases List.mem_singleton.mp hf with rfl
          intro hc
          exact hndS.1 (List.mem_map.mpr ⟨q, hq, hc.symm⟩))
        hnd.2 hndS.2
      rw [ih2]
      have hfilter : (dirErase d m ++ [(stemEnc m, c)]).filter
            (fun f => !(nameIn (rest.map Prod.fst) f.1))
          = d.filter (fun f => !(nameIn (m :: rest.map Prod.fst) f.1))
            ++ [(stemEnc m, c)] := by
        rw [List.filter_append]
        have hone : ([(stemEnc m, c)]).filter
              (fun f => !(nameIn (rest.map Prod.fst) f.1)) = [(stemEnc m, c)] := by
          apply List.filter_eq_self.mpr
          intro f hf
          rcases List.mem_singleton.mp hf with rfl
          simp only [Bool.not_eq_eq_eq_not, Bool.not_true]
          apply nameIn_eq_false
          intro hmem
          obtain ⟨q, hq, hq2⟩ := List.mem_map.mp hmem
          have h1 := hencT q (List.mem_cons_of_mem _ hq)
          rw [hq2, hstem] at h1
          exact Bool.false_ne_true h1
        rw [hone]
        congr 1
        show (d.filter fun f => f.1 != m).filter _ = _
        rw [List.filter_filter]
        apply List.filter_congr
        intro f hf
        rw [nameIn_cons]
        by_cases h1 : f.1 = m <;> by_cases h2 : nameIn (rest.map Prod.fst) f.1 <;>
          simp [h1, h2]
      rw [hfilter, List.append_assoc, List.singleton_append]
      rw [List.append_assoc, List.singleton_append]
      rfl

/-- C1 (amended): on a wallet directory that contains sensitive files and
no pre-existing .enc entries, secure followed by restore under the same
password succeeds and reproduces the byte-identical original content under
every originally-sensitive name, with the encrypted form removed. -/
theorem claim_C1_roundtrip (pw : String) (g : Nat → Bytes) (d : Dir)
    (hnd : (d.map Prod.fst).Nodup)
    (hnoenc : ∀ f ∈ d, pyEndsWith f.1 ".enc" = false)
    (hs : get_sensitive_files d ≠ []) :
    (secure_wallet_dir pw g d).1 = none
    ∧ (restore_wallet_dir pw (secure_wallet_dir pw g d).2.1).1 = none
    ∧ ∀ p ∈ get_sensitive_files d,
        findContent (restore_wallet_dir pw (secure_wallet_dir pw g d).2.1).2.1
            p.1 = some p.2
        ∧ findContent (restore_wallet_dir pw (secure_wallet_dir pw g d).2.1).2.1
            (p.1 ++ ".enc") = none := by
  have hsec := secure_wallet_dir_spec pw g d hnd hnoenc hs
  set sens := get_sensitive_files d with hsensdef
  set base := d.filter
    (fun f => !(nameIn (sens.map Prod.fst) f.1)) with hbasedef
  set encL := encListFrom pw g sens 0 with hencdef
  have hSnodup : (sens.map Prod.fst).Nodup := sens_names_nodup hnd
  have hA1 : ∀ q ∈ encL, ∃ p ∈ sens, ∃ j, q = encEntryAt pw g j p :=
    fun q hq => encListFrom_mem pw g sens 0 q hq
  have hA2 : ∀ q ∈ encL, pyEndsWith q.1 ".enc" = true := by
    intro q hq
    obtain ⟨p, hp, j, rfl⟩ := hA1 q hq
    exact pyEndsWith_append p.1 ".enc"
  have hA3 : ∀ q ∈ encL, ∃ salt c,
      q.2 = Content.encBlob salt ⟨⟨"SHA256", 32, 100000, salt⟩, pw⟩ c := by
    intro q hq
    obtain ⟨p, hp, j, rfl⟩ := hA1 q hq
    exact ⟨g j, p.2, rfl⟩
  have hA5 : (encL.map Prod.fst).Nodup := by
    rw [hencdef, encListFrom_map_fst]
    have hmm : sens.map (fun p => p.1 ++ ".enc")
        = (sens.map Prod.fst).map (fun x => x ++ ".enc") := by
      rw [List.map_map]
      rfl
    rw [hmm]
    exact hSnodup.map (fun a b hab => append_enc_inj hab)
  have hA6 : ∀ q ∈ encL, pyEndsWith (stemEnc q.1) ".enc" = false := by
    intro q hq
    obtain ⟨p, hp, j, rfl⟩ := hA1 q hq
    show pyEndsWith (stemEnc (p.1 ++ ".enc")) ".enc" = false
    rw [stemEnc_append p.1 (sens_name_ne_empty hp)]
    exact sens_not_enc hp
  have hA7 : (encL.map fun q => stemEnc q.1).Nodup := by
    rw [hencdef, encListFrom_stems pw g sens 0
      (fun p hp => sens_name_ne_empty hp)]
    exact hSnodup
  have hbase_mem : ∀ f ∈ base, f ∈ d ∧ pyEndsWith f.1 ".enc" = false
      ∧ nameIn (sens.map Prod.fst) f.1 = false := by
    intro f hf
    have h1 := List.mem_of_mem_filter hf
    have h2 := List.of_mem_filter hf
    refine ⟨h1, hnoenc f h1, ?_⟩
    revert h2
    rcases hni : nameIn (sens.map Prod.fst) f.1 <;> simp
  have hbase_no_enc_name : ∀ (x : String), pyEndsWith x ".enc" = true →
      findContent base x = none := by
    intro x hx
    apply findContent_eq_none
    intro f hf hfx
    have h2 := (hbase_mem f hf).2.1
    rw [hfx, hx] at h2
    exact Bool.false_ne_true h2.symm
  have hEncFilter : encFilter (base ++ encL) = encL := by
    unfold encFilter
    rw [List.filter_append]
    rw [List.filter_eq_nil_iff.mpr (fun f hf => by
      rw [(hbase_mem f hf).2.1]
      simp)]
    rw [List.filter_eq_self.mpr hA2]
    rfl
  have hEncNe : encL ≠ [] := by
    rcases hsl : sens with _ | ⟨p, rest⟩
    · exact absurd hsl hs
    · rw [hencdef, hsl]
      simp [encListFrom]
  have hpres : ∀ q ∈ encL, findContent (base ++ encL) q.1 = some q.2 := by
    intro q hq
    rw [findContent_append_right _ (hbase_no_enc_name q.1 (hA2 q hq))]
    exact findContent_of_mem_nodup hq hA5
  have hstemNone : ∀ q ∈ encL, findContent (base ++ encL) (stemEnc q.1) = none := by
    intro q hq
    obtain ⟨p, hp, j, rfl⟩ := hA1 q hq
    show findContent (base ++ encL) (stemEnc (p.1 ++ ".enc")) = none
    rw [stemEnc_append p.1 (sens_name_ne_empty hp)]
    have hb : findContent base p.1 = none := by
      apply findContent_eq_none
      intro f hf hfx
      have h3 := (hbase_mem f hf).2.2
      rw [hfx, nameIn_eq_true (List.mem_map.mpr ⟨p, hp, rfl⟩)] at h3
      exact Bool.false_ne_true h3.symm
    rw [findContent_append_right _ hb]
    apply findContent_eq_none
    intro f hf hfx
    have h2 := hA2 f hf
    rw [hfx, sens_not_enc hp] at h2
    exact Bool.false_ne_true h2
  have hres := restoreFilesLoop_struct pw encL (base ++ encL) []
    hpres hA3 hA2 hA6 hstemNone hA5 hA7
  have hRes2 : (base ++ encL).filter
      (fun f => !(nameIn (encL.map Prod.fst) f.1)) = base := by
    rw [List.filter_append]
    rw [List.filter_eq_self.mpr (fun f hf => by
      have h2 := (hbase_mem f hf).2.1
      have hni : nameIn (encL.map Prod.fst) f.1 = false := by
        apply nameIn_eq_false
        intro hmem
        obtain ⟨q, hq, hq2⟩ := List.mem_map.mp hmem
        have h3 := hA2 q hq
        rw [hq2, h2] at h3
        exact Bool.false_ne_true h3
      rw [hni]
      rfl)]
    rw [List.filter_eq_nil_iff.mpr (fun q hq => by
      rw [nameIn_eq_true (List.mem_map.mpr ⟨q, hq, rfl⟩)]
      simp)]
    rw [List.append_nil]
  have hRes3 : encL.map (fun q => (stemEnc q.1, payloadOf q.2)) = sens := by
    rw [hencdef]
    exact encListFrom_restore pw g sens 0 (fun p hp => sens_name_ne_empty hp)
  have hrestore : restore_wallet_dir pw (base ++ encL)
      = (none, base ++ sens, [] ++ encL.map fun q => stemEnc q.1) := by
    unfold restore_wallet_dir
    rw [hEncFilter, if_neg hEncNe, hres, hRes2, hRes3]
  refine ⟨by rw [hsec], ?_, ?_⟩
  · rw [hsec]
    show (restore_wallet_dir pw (base ++ encL)).1 = none
    rw [hrestore]
  · intro p hp
    rw [hsec]
    show findContent (restore_wallet_dir pw (base ++ encL)).2.1 p.1 = some p.2
      ∧ findContent (restore_wallet_dir pw (base ++ encL)).2.1
          (p.1 ++ ".enc") = none
    rw [hrestore]
    constructor
    · show findContent (base ++ sens) p.1 = some p.2
      have hb : findContent base p.1 = none := by
        apply findContent_eq_none
        intro f hf hfx
        have h3 := (hbase_mem f hf).2.2
        rw [hfx, nameIn_eq_true (List.mem_map.mpr ⟨p, hp, rfl⟩)] at h3
        exact Bool.false_ne_true h3.symm
      rw [findContent_append_right _ hb]
      exact findContent_of_mem_nodup hp hSnodup
    · show findContent (base ++ sens) (p.1 ++ ".enc") = none
      have hb : findContent base (p.1 ++ ".enc") = none :=
        hbase_no_enc_name _ (pyEndsWith_append p.1 ".enc")
      rw [findContent_append_right _ hb]
      apply findContent_eq_none
      intro f hf hfx
      have h2 := sens_not_enc hf
      rw [hfx] at h2
      rw [pyEndsWith_append p.1 ".enc"] at h2
      exact Bool.false_ne_true h2.symm

/-- Directory for the C1 counterexample: a sensitive file plus a stale
pre-existing .enc file that does not decrypt under the password. -/
def dC1 : Dir := [("stale.enc", .plain []), ("a.skey", .plain [1, 2, 3])]

/-- C1, counterexample: on a directory that also holds a stale .enc file,
secure succeeds but restore aborts on the stale file before restoring the
originally-sensitive a.skey, so the round trip does not reproduce its
plaintext under the original name. -/
theorem claim_C1_counterexample :
    (secure_wallet_dir "pw" saltGenC dC1).1 = none
    ∧ (restore_wallet_dir "pw" (secure_wallet_dir "pw" saltGenC dC1).2.1).1
        = some (.restoreFailed "stale.enc")
    ∧ findContent
        (restore_wallet_dir "pw" (secure_wallet_dir "pw" saltGenC dC1).2.1).2.1
        "a.skey" = none
    ∧ ("a.skey", Content.plain [1, 2, 3]) ∈ get_sensitive_files dC1 := by
  decide

/-- Witness for C1 (amended) on a one-file directory. -/
theorem claim_C1_witness :
    (secure_wallet_dir "pw" saltGenC [("a.skey", .plain [1])]).1 = none
    ∧ (restore_wallet_dir "pw"
        (secure_wallet_dir "pw" saltGenC [("a.skey", .plain [1])]).2.1).1 = none
    ∧ findContent (restore_wallet_dir "pw"
        (secure_wallet_dir "pw" saltGenC [("a.skey", .plain [1])]).2.1).2.1
        "a.skey" = some (.plain [1]) := by
  have h := claim_C1_roundtrip "pw" saltGenC [("a.skey", .plain [1])]
    (by decide) (by decide) (by decide)
  refine ⟨h.1, h.2.1, ?_⟩
  exact (h.2.2 ("a.skey", .plain [1]) (by decide)).1

end CSPO
